import Mathlib

/-!
Shallow embedding of the brand-guidelines extractor's core pipeline
(`design_data_analyzer`): the data model of `pipeline.py`, the evidence
aggregator `consolidate`, the layout analyzer (`extraction/layout.py`), the
color extractor (`extraction/colors.py`), the typography heuristics
(`extraction/text.py`), the per-image extraction orchestration
(`extraction/__init__.py`) and the tone-of-voice synthesis rules of
`guidelines.py`.  Python floats are modelled as exact rationals, Python
`dict`s (insertion ordered, overwrite keeps position, new keys append) as
association lists, and Python's stable `sorted(..., reverse=True)` as a
stable merge sort with a greater-or-equal comparison.
-/

namespace BGE

/-- Models `pathlib.Path` as far as the core uses it: `consolidate` only reads
`source.name`, so the decoded final path component is the carried datum. -/
structure Path where
  name : String
deriving DecidableEq

/-- `ColorSwatch` dataclass of `pipeline.py`. -/
structure ColorSwatch where
  hex : String
  name : String
  prominence : ℚ
  usage_hint : String
deriving DecidableEq

/-- `TypographySample` dataclass of `pipeline.py`. -/
structure TypographySample where
  text : String
  casing : String
  weight : String
  classification : String
deriving DecidableEq

/-- `LayoutSummary` dataclass of `pipeline.py`. -/
structure LayoutSummary where
  aspect_ratio : ℚ
  dominant_orientation : String
  whitespace_ratio : ℚ
  focal_regions : List String
deriving DecidableEq

/-- `ImageExtraction` dataclass of `pipeline.py`; `layout` is declared
`Optional[LayoutSummary]` in the source, hence `Option` here. -/
structure ImageExtraction where
  source : Path
  colors : List ColorSwatch
  typography : List TypographySample
  layout : Option LayoutSummary
  detected_copy : List String
  notes : List String
deriving DecidableEq

/-- `AggregatedEvidence` dataclass of `pipeline.py`. -/
structure AggregatedEvidence where
  images : List ImageExtraction
  palette : List ColorSwatch
  typography : List TypographySample
  layout_patterns : List String
  tone_descriptors : List String
  copy_observations : List String
  production_notes : List String
deriving DecidableEq

/-- Insertion-ordered dictionary update, mirroring CPython `d[k] = v`:
overwriting an existing key keeps its position, a new key is appended. -/
def updateAssoc {α β : Type} [DecidableEq α] : List (α × β) → α → β → List (α × β)
  | [], k, v => [(k, v)]
  | (k₀, v₀) :: rest, k, v =>
      if k₀ = k then (k, v) :: rest else (k₀, v₀) :: updateAssoc rest k v

/-- Dictionary lookup `d.get(k)`. -/
def lookupA {α β : Type} [DecidableEq α] (d : List (α × β)) (k : α) : Option β :=
  (d.find? (fun p => decide (p.1 = k))).map (fun p => p.2)

/-- Python `str.upper()`: character-wise uppercase (structural definition so
that the kernel can evaluate it on literals). -/
def strUpper (s : String) : String :=
  ⟨s.data.map Char.toUpper⟩

/-- Python `str.lower()`: character-wise lowercase. -/
def strLower (s : String) : String :=
  ⟨s.data.map Char.toLower⟩

/-- The palette dedup key of `consolidate`: `color.hex.upper()`. -/
def colorKey (c : ColorSwatch) : String :=
  strUpper c.hex

/-- One step of the `by_hex` loop in `consolidate`: skip the new swatch when an
existing entry for the key has greater-or-equal prominence, otherwise write. -/
def mergeColor (d : List (String × ColorSwatch)) (c : ColorSwatch) :
    List (String × ColorSwatch) :=
  match lookupA d (colorKey c) with
  | some existing =>
      if c.prominence ≤ existing.prominence then d
      else updateAssoc d (colorKey c) c
  | none => updateAssoc d (colorKey c) c

/-- The typography dedup key of `consolidate`:
the f-string `classification:weight:casing`. -/
def typoKey (t : TypographySample) : String :=
  t.classification ++ ":" ++ t.weight ++ ":" ++ t.casing

/-- One step of the typography loop in `consolidate`: first occurrence wins. -/
def mergeTypo (d : List (String × TypographySample)) (t : TypographySample) :
    List (String × TypographySample) :=
  match lookupA d (typoKey t) with
  | some _ => d
  | none => updateAssoc d (typoKey t) t

/-- The synthesized low-whitespace production note of `consolidate`. -/
def denseNote (name : String) : String :=
  "Consider reviewing dense composition in " ++ name ++ "; whitespace under 25%."

/-- Orientation contribution of one extraction to `layout_patterns`
(`if extraction.layout:` — a dataclass is always truthy, so only `None` skips). -/
def orientOf (e : ImageExtraction) : List String :=
  match e.layout with
  | some l => [l.dominant_orientation]
  | none => []

/-- Whitespace-triggered production-note contribution of one extraction. -/
def wsNote (e : ImageExtraction) : List String :=
  match e.layout with
  | some l => if l.whitespace_ratio < 1/4 then [denseNote e.source.name] else []
  | none => []

/-- Mutable locals of `consolidate`, threaded through its main loop. -/
structure ConsState where
  by_hex : List (String × ColorSwatch)
  typo : List (String × TypographySample)
  layout_patterns : List String
  copy_lines : List String
  production : List String

/-- One iteration of the `for extraction in images` loop of `consolidate`. -/
def stepExtraction (st : ConsState) (e : ImageExtraction) : ConsState :=
  { by_hex := e.colors.foldl mergeColor st.by_hex
    typo := e.typography.foldl mergeTypo st.typo
    layout_patterns := st.layout_patterns ++ orientOf e
    copy_lines := st.copy_lines ++ e.detected_copy
    production := (st.production ++ wsNote e) ++ e.notes }

/-- `consolidate` of `pipeline.py`.  The final palette is
`sorted(by_hex.values(), key=prominence, reverse=True)`: a stable sort kept
descending, modelled by a stable merge sort under a ≥-comparison.  The local
`tones` list is never appended to, so `tone_descriptors` is always empty. -/
def consolidate (extractions : List ImageExtraction) : AggregatedEvidence :=
  let st := extractions.foldl stepExtraction ⟨[], [], [], [], []⟩
  { images := extractions
    palette := (st.by_hex.map (fun p => p.2)).mergeSort
        (fun a b => decide (b.prominence ≤ a.prominence))
    typography := st.typo.map (fun p => p.2)
    layout_patterns := st.layout_patterns
    tone_descriptors := []
    copy_observations := st.copy_lines
    production_notes := st.production }

/-- All swatches contributed by a list of extractions, in traversal order. -/
def allColors (es : List ImageExtraction) : List ColorSwatch :=
  es.flatMap (fun e => e.colors)

/-- All typography samples contributed by a list of extractions, in order. -/
def allTypo (es : List ImageExtraction) : List TypographySample :=
  es.flatMap (fun e => e.typography)

/-- The survivor of the prominence contest seeded with `a`: each challenger
replaces the current holder only when strictly more prominent (mirrors the
`existing.prominence >= color.prominence: continue` rule). -/
def pickFrom (a : ColorSwatch) : List ColorSwatch → ColorSwatch
  | [] => a
  | c :: rest => pickFrom (if c.prominence ≤ a.prominence then a else c) rest

/-- Lookup result of a `mergeColor` fold, described on the filtered swatches. -/
def pickOpt : Option ColorSwatch → List ColorSwatch → Option ColorSwatch
  | some a, l => some (pickFrom a l)
  | none, [] => none
  | none, c :: rest => some (pickFrom c rest)

/-- `c` is the max-prominence element of `l`, first-written-wins on ties: the
swatches written before it were strictly less prominent (so it overwrote
them), and no later swatch strictly beats it. -/
def keptColor (l : List ColorSwatch) (c : ColorSwatch) : Prop :=
  ∃ pre post, l = pre ++ c :: post ∧ (∀ x ∈ pre, x.prominence < c.prominence) ∧
    ∀ x ∈ post, x.prominence ≤ c.prominence

/-- The swatches contributed for dedup key `k`, in traversal order. -/
def kSwatches (es : List ImageExtraction) (k : String) : List ColorSwatch :=
  (allColors es).filter (fun c => decide (colorKey c = k))

/-- Every stored value carries the key it is stored under. -/
abbrev selfKeyed {β : Type} (κ : β → String) (d : List (String × β)) : Prop :=
  ∀ p ∈ d, κ p.2 = p.1

/-- Dictionary keys are pairwise distinct. -/
abbrev distinctKeys {β : Type} (d : List (String × β)) : Prop :=
  d.Pairwise (fun p q => p.1 ≠ q.1)

/-- `_orientation_from_ratio` of `extraction/layout.py`. -/
def orientation_from_ratio (ratio : ℚ) : String :=
  if ratio > 23/20 then "landscape"
  else if ratio < 17/20 then "portrait"
  else "square"

/-- `GRID_REGIONS` of `extraction/layout.py`. -/
def GRID_REGIONS : List String :=
  ["top-left", "top-center", "top-right", "middle-left", "center",
   "middle-right", "bottom-left", "bottom-center", "bottom-right"]

/-- The rectangular slice `arr[y0:y1, x0:x1]`, flattened row-major. -/
def cellSlice (arr : List (List ℚ)) (y₀ y₁ x₀ x₁ : ℕ) : List ℚ :=
  ((arr.drop y₀).take (y₁ - y₀)).flatMap (fun row => (row.drop x₀).take (x₁ - x₀))

/-- `_resolve_focal_regions` of `extraction/layout.py`, on the normalized
grayscale array (a row-major matrix of values in `[0,1]`). -/
def resolve_focal_regions (arr : List (List ℚ)) : List String :=
  let height := arr.length
  let width := (arr.headD []).length
  let third_h := height / 3
  let third_w := width / 3
  GRID_REGIONS.enum.filterMap (fun iv =>
    let row := iv.1 / 3
    let col := iv.1 % 3
    let y₀ := row * third_h
    let y₁ := if row < 2 then (row + 1) * third_h else height
    let x₀ := col * third_w
    let x₁ := if col < 2 then (col + 1) * third_w else width
    let cell := cellSlice arr y₀ y₁ x₀ x₁
    if cell.length = 0 then none
    else if 1 - cell.sum / (cell.length : ℚ) > 7/20 then some iv.2 else none)

/-- `summarize_layout` of `extraction/layout.py`, taken after the
PIL-external grayscale conversion, Gaussian blur and `/255` normalization:
its input is the resulting row-major matrix of brightness values.  The
`np.mean` of an empty selection (NaN in numpy) is modelled as `0`. -/
def summarize_layout (arr : List (List ℚ)) : LayoutSummary :=
  let height := arr.length
  let width := (arr.headD []).length
  let aspect_ratio : ℚ := if height = 0 then 1 else (width : ℚ) / (height : ℚ)
  let total := (arr.map (fun row => row.length)).sum
  let whites := (arr.map (fun row => (row.filter (fun v => decide (9/10 ≤ v))).length)).sum
  { aspect_ratio := aspect_ratio
    dominant_orientation := orientation_from_ratio aspect_ratio
    whitespace_ratio := if total = 0 then 0 else (whites : ℚ) / (total : ℚ)
    focal_regions := resolve_focal_regions arr }

/-- Python `str.split()` with no argument: split on whitespace runs,
dropping empty pieces. -/
def pyWords (s : String) : List String :=
  (s.split Char.isWhitespace).filter (fun w => w ≠ "")

/-- Python `str.isupper()` restricted to ASCII text: at least one cased
character, and every cased character uppercase. -/
def pyIsUpper (s : String) : Bool :=
  s.data.any Char.isAlpha && (s.data.filter Char.isAlpha).all Char.isUpper

/-- `" ".join(line.split())` — collapse internal whitespace runs. -/
def normalize_line (line : String) : String :=
  String.intercalate " " (pyWords line)

/-- `_infer_casing` of `extraction/text.py`. -/
def infer_casing (text : String) : String :=
  let letters := text.data.filter Char.isAlpha
  if letters = [] then "mixed"
  else if letters.all Char.isUpper then "uppercase"
  else if letters.all Char.isLower then "lowercase"
  else if (letters.headD 'a').isUpper then "title"
  else "mixed"

/-- `_infer_weight` of `extraction/text.py`. -/
def infer_weight (text : String) : String :=
  if text.length ≤ 12 ∧ pyIsUpper text then "bold"
  else if 8 ≤ (pyWords text).length then "regular"
  else "medium"

/-- `_infer_classification` of `extraction/text.py`. -/
def infer_classification (text : String) : String :=
  let ws := pyWords text
  if ws.length ≤ 4 ∧ pyIsUpper text then "display"
  else if ws.length ≤ 8 then "headline"
  else "body"

/-- One loop step of `build_typography_samples`: the accumulator pairs the
emitted samples with the `seen` set of lowercased normalized lines. -/
def typoStep (acc : List TypographySample × List String) (line : String) :
    List TypographySample × List String :=
  let normalized := normalize_line line
  if normalized = "" ∨ strLower normalized ∈ acc.2 then acc
  else
    (acc.1 ++ [{ text := normalized
                 casing := infer_casing normalized
                 weight := infer_weight normalized
                 classification := infer_classification normalized }],
     acc.2 ++ [strLower normalized])

/-- `build_typography_samples` of `extraction/text.py`. -/
def build_typography_samples (lines : List String) : List TypographySample :=
  (lines.foldl typoStep ([], [])).1

/-- A sample whose colon-joined dedup key is `a:b:c:d` via classification
`a:b`, weight `c`, casing `d`. -/
def c2Collider : TypographySample :=
  { text := "t0", casing := "d", weight := "c", classification := "a:b" }

/-- A sample with triple (`a`, `b:c`, `d`), key also `a:b:c:d`. -/
def c2First : TypographySample :=
  { text := "one", casing := "d", weight := "b:c", classification := "a" }

/-- A second sample with the same triple (`a`, `b:c`, `d`). -/
def c2Second : TypographySample :=
  { text := "two", casing := "d", weight := "b:c", classification := "a" }

/-- Extraction contributing only the colliding sample. -/
def c2Ext0 : ImageExtraction :=
  { source := ⟨"x0.png"⟩, colors := [], typography := [c2Collider],
    layout := none, detected_copy := [], notes := [] }

/-- Extraction contributing the first triple-(`a`,`b:c`,`d`) sample. -/
def c2Ext1 : ImageExtraction :=
  { source := ⟨"x1.png"⟩, colors := [], typography := [c2First],
    layout := none, detected_copy := [], notes := [] }

/-- Extraction contributing the second triple-(`a`,`b:c`,`d`) sample. -/
def c2Ext2 : ImageExtraction :=
  { source := ⟨"x2.png"⟩, colors := [], typography := [c2Second],
    layout := none, detected_copy := [], notes := [] }

/-- Demonstration extraction with a display/bold/uppercase sample, text HI. -/
def twExt1 : ImageExtraction :=
  { source := ⟨"t1.png"⟩, colors := [],
    typography := [{ text := "HI", casing := "uppercase", weight := "bold", classification := "display" }],
    layout := none, detected_copy := [], notes := [] }

/-- Demonstration extraction with a display/bold/uppercase sample, text YO. -/
def twExt2 : ImageExtraction :=
  { source := ⟨"t2.png"⟩, colors := [],
    typography := [{ text := "YO", casing := "uppercase", weight := "bold", classification := "display" }],
    layout := none, detected_copy := [], notes := [] }

/-- A demonstration extraction carrying hex `#00a1de` at prominence `1/2`. -/
def cwExtA : ImageExtraction :=
  { source := ⟨"a.png"⟩,
    colors := [{ hex := "#00a1de", name := "Bynder Blue", prominence := 1/2, usage_hint := "x" }],
    typography := [], layout := none, detected_copy := [], notes := [] }

/-- A demonstration extraction carrying hex `#00A1DE` at prominence `3/4`. -/
def cwExtB : ImageExtraction :=
  { source := ⟨"b.png"⟩,
    colors := [{ hex := "#00A1DE", name := "Bynder Blue", prominence := 3/4, usage_hint := "y" }],
    typography := [], layout := none, detected_copy := [], notes := [] }

/-- A demonstration extraction whose layout has whitespace ratio `1/5`. -/
def wsDemoLow : ImageExtraction :=
  { source := ⟨"img.png"⟩, colors := [], typography := [],
    layout := some ⟨1, "square", 1/5, []⟩, detected_copy := [], notes := ["n"] }

/-- A demonstration extraction whose layout has whitespace ratio `1/4`. -/
def wsDemoHigh : ImageExtraction :=
  { source := ⟨"img.png"⟩, colors := [], typography := [],
    layout := some ⟨1, "square", 1/4, []⟩, detected_copy := [], notes := ["n"] }

/-- `NAMED_COLORS` of `extraction/colors.py`: name and (r, g, b). -/
def NAMED_COLORS : List (String × ℕ × ℕ × ℕ) :=
  [("Bynder Blue", 0, 161, 222), ("Deep Blue", 0, 102, 204),
   ("Navy", 17, 34, 68), ("Sky", 102, 204, 255), ("Midnight", 2, 20, 43),
   ("Sunrise Orange", 255, 149, 0), ("Vivid Red", 220, 20, 60),
   ("Warm Red", 200, 48, 48), ("Slate", 112, 128, 144),
   ("Charcoal", 54, 69, 79), ("Stone", 189, 195, 199),
   ("Cloud", 236, 240, 241), ("Emerald", 46, 204, 113),
   ("Mint", 171, 235, 198), ("Lavender", 187, 143, 206),
   ("Magenta", 214, 41, 118), ("Gold", 255, 195, 0)]

/-- Squared Euclidean RGB distance from an anchor entry to `(r, g, b)`.
The source compares `sqrt` of this quantity; `sqrt` is strictly monotone, so
minimizing the square selects the same anchor (including the first-minimal
tie-break). -/
def anchorDistSq (r g b : ℕ) (item : String × ℕ × ℕ × ℕ) : ℤ :=
  ((item.2.1 : ℤ) - (r : ℤ)) ^ 2 + ((item.2.2.1 : ℤ) - (g : ℤ)) ^ 2 +
    ((item.2.2.2 : ℤ) - (b : ℤ)) ^ 2

/-- `_closest_named_color` of `extraction/colors.py`: Python `min` keeps the
first minimal element, i.e. replace only on a strictly smaller distance. -/
def closest_named_color (r g b : ℕ) : String :=
  match NAMED_COLORS with
  | [] => ""
  | c₀ :: rest =>
      (rest.foldl (fun best cand =>
        if anchorDistSq r g b cand < anchorDistSq r g b best then cand else best) c₀).1

/-- Uppercase hexadecimal digit character for `n < 16`. -/
def hexDigitChar (n : ℕ) : Char :=
  if n < 10 then Char.ofNat (48 + n) else Char.ofNat (55 + n)

/-- Python `f"{n:02X}"` for a byte value. -/
def byteHex (n : ℕ) : String :=
  String.mk [hexDigitChar (n / 16), hexDigitChar (n % 16)]

/-- The f-string `#{r:02X}{g:02X}{b:02X}` of `extract_colors`. -/
def hexOfRGB (r g b : ℕ) : String :=
  "#" ++ byteHex r ++ byteHex g ++ byteHex b

/-- `_usage_hint` of `extraction/colors.py`. -/
def usage_hint (prominence : ℚ) : String :=
  if prominence ≥ 9/20 then "Dominant background or hero coverage"
  else if prominence ≥ 1/4 then "Primary supporting block"
  else if prominence ≥ 1/10 then "Accent or typography highlight"
  else "Detail accent"

/-- One step of `collections.Counter` accumulation. -/
def counterStep (acc : List (ℕ × ℕ)) (x : ℕ) : List (ℕ × ℕ) :=
  match lookupA acc x with
  | some n => updateAssoc acc x (n + 1)
  | none => updateAssoc acc x 1

/-- `collections.Counter(data)`: counts keyed by first-encounter order. -/
def counterOf (data : List ℕ) : List (ℕ × ℕ) :=
  data.foldl counterStep []

/-- `Counter.most_common(k)`: stable sort by count descending (ties keep
first-encounter order, as CPython documents), take `k`. -/
def mostCommon (counts : List (ℕ × ℕ)) (k : ℕ) : List (ℕ × ℕ) :=
  (counts.mergeSort (fun a b => decide (b.2 ≤ a.2))).take k

/-- The loop body of `extract_colors` for one `(index, count)` pair: skip the
entry when its palette slot exceeds the palette buffer, otherwise build the
swatch with `prominence = count / total_pixels`. -/
def swatchOfCount (palette_colors : List ℕ) (total_pixels : ℕ) (ic : ℕ × ℕ) :
    Option ColorSwatch :=
  if palette_colors.length ≤ ic.1 * 3 + 2 then none
  else
    some { hex := hexOfRGB (palette_colors.getD (ic.1 * 3) 0)
             (palette_colors.getD (ic.1 * 3 + 1) 0)
             (palette_colors.getD (ic.1 * 3 + 2) 0)
           name := closest_named_color (palette_colors.getD (ic.1 * 3) 0)
             (palette_colors.getD (ic.1 * 3 + 1) 0)
             (palette_colors.getD (ic.1 * 3 + 2) 0)
           prominence := (ic.2 : ℚ) / (total_pixels : ℚ)
           usage_hint := usage_hint ((ic.2 : ℚ) / (total_pixels : ℚ)) }

/-- `extract_colors` of `extraction/colors.py`, taken after the PIL-external
steps (RGBA conversion, thumbnail, alpha flattening, adaptive quantization):
`data` is the quantized image's per-pixel palette indices
(`palette.getdata()`), `palette_raw` the flattened palette
(`palette.getpalette()`), truncated to `max_colors * 3` as in the source;
`total_pixels` is `sum(counts.values()) or 1`. -/
def extract_colors (data : List ℕ) (palette_raw : List ℕ) (max_colors : ℕ) :
    List ColorSwatch :=
  (mostCommon (counterOf data) max_colors).filterMap
    (swatchOfCount (palette_raw.take (max_colors * 3))
      (if ((counterOf data).map (fun p => p.2)).sum = 0 then 1
       else ((counterOf data).map (fun p => p.2)).sum))

/-- First caveat of `extract_from_path`. -/
def noColorsNote : String :=
  "No dominant colors detected; image may be transparent or monochrome."

/-- Second caveat of `extract_from_path`. -/
def ocrGapNote : String :=
  "OCR text present but typography heuristics produced no samples."

/-- Third caveat of `extract_from_path`. -/
def noCopyNote : String :=
  "No copy detected automatically; review manually for critical messaging."

/-- `extract_from_path` of `extraction/__init__.py`, taken after the
PIL-external decode of the image at `path`: `data` and `palette_raw` are the
quantization outputs consumed by `extract_colors`, `gray` the normalized
blurred grayscale matrix consumed by `summarize_layout`, and `text_lines` the
OCR output of `extract_text_lines` (empty when OCR is unavailable). -/
def extract_from_image (path : Path) (data : List ℕ) (palette_raw : List ℕ)
    (gray : List (List ℚ)) (text_lines : List String) : ImageExtraction :=
  let colors := extract_colors data palette_raw 5
  let layout := summarize_layout gray
  let typography := build_typography_samples text_lines
  let notes :=
    (if colors = [] then [noColorsNote] else []) ++
    (if typography = [] ∧ text_lines ≠ [] then [ocrGapNote] else []) ++
    (if text_lines = [] then [noCopyNote] else [])
  { source := path
    colors := colors
    typography := typography
    layout := some layout
    detected_copy := text_lines
    notes := notes }

/-- The single swatch extracted from two pixels of palette index `0` over the
palette buffer `[9, 8, 7]`. -/
def w7s : ColorSwatch :=
  { hex := hexOfRGB 9 8 7, name := closest_named_color 9 8 7,
    prominence := ((2 : ℕ) : ℚ) / ((2 : ℕ) : ℚ),
    usage_hint := usage_hint (((2 : ℕ) : ℚ) / ((2 : ℕ) : ℚ)) }

/-- A demonstration swatch whose hex `#000000` has relative brightness `0`. -/
def w8Swatch : ColorSwatch :=
  { hex := hexOfRGB 0 0 0, name := "Midnight", prominence := 1, usage_hint := "" }

/-- `Section` dataclass of `guidelines.py`. -/
structure Section where
  title : String
  body : List String
deriving DecidableEq

/-- The fields of the `voice_and_copy` spec dictionary read by
`_tone_of_voice_section`; an absent key reads as an empty list. -/
structure VoiceSpec where
  tone_descriptors : List String
  messaging_pillars : List String
  dos : List String
  donts : List String
deriving DecidableEq

/-- The field of the `brand_identity` spec dictionary read by
`_tone_of_voice_section`. -/
structure BrandSpec where
  core_attributes : List String
deriving DecidableEq

/-- Value of one hexadecimal digit character, `0` for anything else
(the source's `int(_, 16)` would raise there; the claims only evaluate it on
well-formed `#RRGGBB` strings produced by the extractor). -/
def hexDigitVal (c : Char) : ℕ :=
  if '0' ≤ c ∧ c ≤ '9' then c.toNat - 48
  else if 'A' ≤ c ∧ c ≤ 'F' then c.toNat - 55
  else if 'a' ≤ c ∧ c ≤ 'f' then c.toNat - 87
  else 0

/-- `_relative_brightness` of `guidelines.py`:
`(0.2126 R + 0.7152 G + 0.0722 B) / 255` on the `#`-stripped hex string. -/
def relative_brightness (hex_value : String) : ℚ :=
  let cs := hex_value.data.dropWhile (fun c => c = '#')
  let r := hexDigitVal (cs.getD 0 '0') * 16 + hexDigitVal (cs.getD 1 '0')
  let g := hexDigitVal (cs.getD 2 '0') * 16 + hexDigitVal (cs.getD 3 '0')
  let b := hexDigitVal (cs.getD 4 '0') * 16 + hexDigitVal (cs.getD 5 '0')
  ((2126 : ℚ)/10000 * (r : ℚ) + (7152 : ℚ)/10000 * (g : ℚ) +
    (722 : ℚ)/10000 * (b : ℚ)) / 255

/-- `_uppercase_ratio` of `guidelines.py`: uppercase letters over all
letters across all lines, `0` when no letters occur. -/
def uppercase_ratio (lines : List String) : ℚ :=
  let letters : ℕ := (lines.map (fun l => (l.data.filter Char.isAlpha).length)).sum
  let upper : ℕ := (lines.map (fun l =>
    (l.data.filter (fun c => c.isAlpha && c.isUpper)).length)).sum
  if letters = 0 then 0 else (upper : ℚ) / (letters : ℚ)

/-- The dominant-palette tone line of `_tone_of_voice_section`. -/
def toneLine (tone : String) : String :=
  "- Dominant palette leans " ++ tone ++ "; mirror this energy in written narratives."

/-- The bold-headline casing guidance line. -/
def upperCaseLine : String :=
  "- High uppercase usage; maintain bold, declarative headlines."

/-- The conversational casing guidance line. -/
def sentenceCaseLine : String :=
  "- Predominantly sentence case; emphasize conversational clarity."

/-- The mixed casing guidance line. -/
def mixedCaseLine : String :=
  "- Mixed casing observed; adapt tone per channel while staying precise."

/-- The default Key Voice Principles block (no `messaging_pillars` supplied). -/
def defaultPillars (average_length : ℚ) : List String :=
  (if average_length ≤ 4 then
    ["1. **Punchy Headlines** — Lead with sharp benefit statements."]
   else
    ["1. **Clarity First** — Summaries should surface the outcome immediately."]) ++
  ["2. **Evidence-backed Claims** — Support impact points with data where available.",
   "3. **Partner Mindset** — Use second-person framing to reinforce collaboration."]

/-- The numbered pillars block, `enumerate(pillars, start=1)`. -/
def numberedPillars (pillars : List String) : List String :=
  pillars.enum.map (fun ip => toString (ip.1 + 1) ++ ". **" ++ ip.2 ++ "**")

/-- `_tone_of_voice_section` of `guidelines.py`.  The `typography` parameter
is accepted and unused, exactly as in the source. -/
def tone_of_voice_section (palette : List ColorSwatch)
    (_typography : List TypographySample) (copy_lines : List String)
    (voice_spec : Option VoiceSpec) (brand_spec : Option BrandSpec) : Section :=
  let dominant := palette.head?
  let upper_ratio := uppercase_ratio copy_lines
  let average_length : ℚ :=
    if copy_lines = [] then 0
    else ((copy_lines.map (fun l => ((pyWords l).length : ℚ))).sum) / (copy_lines.length : ℚ)
  let v₁ : List String := ["### What Defines the Voice"]
  let v₂ := v₁ ++
    (match dominant with
     | some d =>
         let brightness := relative_brightness d.hex
         let tone :=
           if brightness < 7/20 then "confident and premium"
           else if brightness < 3/5 then "assured and balanced"
           else "open and energizing"
         [toneLine tone]
     | none => ["- Palette analysis unavailable; retain neutral authoritative tone."])
  let v₃ := v₂ ++
    (match brand_spec with
     | some bs =>
         if bs.core_attributes ≠ [] then
           ["- Core attributes surfaced: " ++ String.intercalate ", " bs.core_attributes ++ "."]
         else []
     | none => [])
  let v₄ := v₃ ++
    (if upper_ratio > 11/20 then [upperCaseLine]
     else if upper_ratio < 1/4 ∧ copy_lines ≠ [] then [sentenceCaseLine]
     else [mixedCaseLine])
  let v₅ := v₄ ++
    (match voice_spec with
     | some vs =>
         if vs.tone_descriptors ≠ [] then
           ["- Noted tone descriptors: " ++ String.intercalate ", " vs.tone_descriptors ++ "."]
         else []
     | none => [])
  let v₆ := v₅ ++ ["", "### Key Voice Principles"]
  let v₇ := v₆ ++
    (match voice_spec with
     | some vs =>
         if vs.messaging_pillars ≠ [] then numberedPillars vs.messaging_pillars
         else defaultPillars average_length
     | none => defaultPillars average_length)
  let v₈ := v₇ ++
    (match voice_spec with
     | some vs =>
         if vs.dos ≠ [] ∨ vs.donts ≠ [] then
           [""] ++ (if vs.dos ≠ [] then ["- **Do:** " ++ String.intercalate ", " vs.dos] else [])
                ++ (if vs.donts ≠ [] then
                      ["- **Don\x27t:** " ++ String.intercalate ", " vs.donts] else [])
         else []
     | none => [])
  { title := "Tone of Voice", body := v₈ }

/-! ## Theorems -/

theorem foldl_stepExtraction (es : List ImageExtraction) (st : ConsState) :
    es.foldl stepExtraction st =
      { by_hex := (allColors es).foldl mergeColor st.by_hex
        typo := (allTypo es).foldl mergeTypo st.typo
        layout_patterns := st.layout_patterns ++ es.flatMap orientOf
        copy_lines := st.copy_lines ++ es.flatMap (fun e => e.detected_copy)
        production := st.production ++ es.flatMap (fun e => wsNote e ++ e.notes) } := by
  induction es generalizing st with
  | nil => simp [allColors, allTypo]
  | cons e es ih =>
      simp only [List.foldl_cons, ih, allColors, allTypo, List.flatMap_cons,
        List.foldl_append, stepExtraction]
      simp [List.append_assoc]

theorem consolidate_palette_eq (es : List ImageExtraction) :
    (consolidate es).palette =
      (((allColors es).foldl mergeColor []).map (fun p => p.2)).mergeSort
        (fun a b => decide (b.prominence ≤ a.prominence)) := by
  simp [consolidate, foldl_stepExtraction]

theorem consolidate_typography_eq (es : List ImageExtraction) :
    (consolidate es).typography = ((allTypo es).foldl mergeTypo []).map (fun p => p.2) := by
  simp [consolidate, foldl_stepExtraction]

theorem consolidate_production_eq (es : List ImageExtraction) :
    (consolidate es).production_notes = es.flatMap (fun e => wsNote e ++ e.notes) := by
  simp [consolidate, foldl_stepExtraction]

theorem consolidate_layout_patterns_eq (es : List ImageExtraction) :
    (consolidate es).layout_patterns = es.flatMap orientOf := by
  simp [consolidate, foldl_stepExtraction]

theorem consolidate_copy_eq (es : List ImageExtraction) :
    (consolidate es).copy_observations = es.flatMap (fun e => e.detected_copy) := by
  simp [consolidate, foldl_stepExtraction]

/-- C3: an image whose layout has `whitespace_ratio < 0.25` gets a synthesized
production note naming it and the 25% threshold prepended to its own notes;
at `0.25` or above no such note is appended (strict comparison). -/
theorem consolidate_whitespace_note (e : ImageExtraction) (l : LayoutSummary)
    (hl : e.layout = some l) :
    (l.whitespace_ratio < 1/4 →
        (consolidate [e]).production_notes = denseNote e.source.name :: e.notes) ∧
      (1/4 ≤ l.whitespace_ratio → (consolidate [e]).production_notes = e.notes) ∧
      denseNote e.source.name =
        "Consider reviewing dense composition in " ++ e.source.name ++
          "; whitespace under 25%." := by
  refine ⟨fun h => ?_, fun h => ?_, rfl⟩
  · rw [consolidate_production_eq]
    simp only [List.flatMap_cons, List.flatMap_nil, List.append_nil, wsNote, hl,
      if_pos h]
    rfl
  · rw [consolidate_production_eq]
    simp only [List.flatMap_cons, List.flatMap_nil, List.append_nil, wsNote, hl,
      if_neg (not_lt.mpr h)]
    rfl

/-- Witness for C3 at concrete inputs: ratio `1/5` triggers the note, ratio
`1/4` does not. -/
theorem consolidate_whitespace_note_witness :
    (consolidate [wsDemoLow]).production_notes = denseNote "img.png" :: ["n"] ∧
      (consolidate [wsDemoHigh]).production_notes = ["n"] :=
  ⟨(consolidate_whitespace_note wsDemoLow ⟨1, "square", 1/5, []⟩ rfl).1 (by norm_num),
   (consolidate_whitespace_note wsDemoHigh ⟨1, "square", 1/4, []⟩ rfl).2.1 (by norm_num)⟩

/-- C4: aggregating an empty extraction list yields a well-formed
`AggregatedEvidence` with every collection empty (and, being a total
function of its input, it cannot raise). -/
theorem consolidate_empty :
    (consolidate []).palette = [] ∧ (consolidate []).typography = [] ∧
      (consolidate []).layout_patterns = [] ∧
      (consolidate []).copy_observations = [] ∧
      (consolidate []).production_notes = [] ∧ (consolidate []).images = [] ∧
      (consolidate []).tone_descriptors = [] := by
  refine ⟨?_, rfl, rfl, rfl, rfl, rfl, rfl⟩
  simp [consolidate_palette_eq, allColors]

/-- C5: the aggregator is a pure deterministic function of its ordered input:
two runs over the same extraction list produce identical
`AggregatedEvidence` values. -/
theorem consolidate_deterministic (es : List ImageExtraction) :
    consolidate es = consolidate es := rfl

/-- C6: the orientation classification is exactly `> 1.15 → landscape`,
`< 0.85 → portrait`, everything else (both bounds and `1.0` included)
`square`; in particular `1.16`, `0.84` and `1.0` classify as stated. -/
theorem orientation_thresholds :
    (∀ r : ℚ, 23/20 < r → orientation_from_ratio r = "landscape") ∧
      (∀ r : ℚ, r < 17/20 → orientation_from_ratio r = "portrait") ∧
      (∀ r : ℚ, 17/20 ≤ r → r ≤ 23/20 → orientation_from_ratio r = "square") ∧
      orientation_from_ratio (29/25) = "landscape" ∧
      orientation_from_ratio (21/25) = "portrait" ∧
      orientation_from_ratio 1 = "square" ∧
      orientation_from_ratio (23/20) = "square" ∧
      orientation_from_ratio (17/20) = "square" := by
  refine ⟨fun r h => ?_, fun r h => ?_, fun r h₁ h₂ => ?_, ?_, ?_, ?_, ?_, ?_⟩
  · rw [orientation_from_ratio, if_pos h]
  · rw [orientation_from_ratio, if_neg (not_lt.mpr (by linarith)), if_pos h]
  · rw [orientation_from_ratio, if_neg (not_lt.mpr h₂), if_neg (not_lt.mpr h₁)]
  · norm_num [orientation_from_ratio]
  · norm_num [orientation_from_ratio]
  · norm_num [orientation_from_ratio]
  · norm_num [orientation_from_ratio]
  · norm_num [orientation_from_ratio]

/-- Witness for C6 at concrete ratios. -/
theorem orientation_thresholds_witness :
    orientation_from_ratio 2 = "landscape" ∧
      orientation_from_ratio (1/2) = "portrait" ∧
      orientation_from_ratio 1 = "square" :=
  ⟨orientation_thresholds.1 2 (by norm_num),
   orientation_thresholds.2.1 (1/2) (by norm_num),
   orientation_thresholds.2.2.1 1 (by norm_num) (by norm_num)⟩

/-- C9: per-image extraction emits exactly the three conditional caveats, in
the fixed order no-colors, OCR-gap, no-copy, each present precisely when its
trigger holds (co-occurrence allowed). -/
theorem extraction_notes_exact (path : Path) (data palette_raw : List ℕ)
    (gray : List (List ℚ)) (text_lines : List String) :
    (noColorsNote ∈ (extract_from_image path data palette_raw gray text_lines).notes ↔
        (extract_from_image path data palette_raw gray text_lines).colors = []) ∧
      (ocrGapNote ∈ (extract_from_image path data palette_raw gray text_lines).notes ↔
        ((extract_from_image path data palette_raw gray text_lines).typography = [] ∧
          (extract_from_image path data palette_raw gray text_lines).detected_copy ≠ [])) ∧
      (noCopyNote ∈ (extract_from_image path data palette_raw gray text_lines).notes ↔
        (extract_from_image path data palette_raw gray text_lines).detected_copy = []) ∧
      List.Sublist (extract_from_image path data palette_raw gray text_lines).notes
        [noColorsNote, ocrGapNote, noCopyNote] := by
  by_cases hc : extract_colors data palette_raw 5 = [] <;>
    by_cases ht : build_typography_samples text_lines = [] <;>
    by_cases hl : text_lines = [] <;>
    simp [extract_from_image, hc, ht, hl, noColorsNote, ocrGapNote, noCopyNote]

theorem lookupA_cons {α β : Type} [DecidableEq α] (k₀ : α) (v₀ : β)
    (d : List (α × β)) (k : α) :
    lookupA ((k₀, v₀) :: d) k = if k₀ = k then some v₀ else lookupA d k := by
  by_cases h : k₀ = k <;> simp [lookupA, List.find?_cons, h]

theorem lookupA_updateAssoc_self {α β : Type} [DecidableEq α] (d : List (α × β))
    (k : α) (v : β) : lookupA (updateAssoc d k v) k = some v := by
  induction d with
  | nil => simp [updateAssoc, lookupA_cons]
  | cons p rest ih =>
      obtain ⟨k₀, v₀⟩ := p
      by_cases h : k₀ = k
      · simp [updateAssoc, h, lookupA_cons]
      · simp [updateAssoc, h, lookupA_cons, ih]

theorem lookupA_updateAssoc_ne {α β : Type} [DecidableEq α] (d : List (α × β))
    (k₁ k₂ : α) (v : β) (h : k₁ ≠ k₂) :
    lookupA (updateAssoc d k₁ v) k₂ = lookupA d k₂ := by
  induction d with
  | nil => simp [updateAssoc, lookupA_cons, h, lookupA]
  | cons p rest ih =>
      obtain ⟨k₀, v₀⟩ := p
      by_cases hk : k₀ = k₁
      · simp [updateAssoc, hk, lookupA_cons, h]
      · simp [updateAssoc, hk, lookupA_cons, ih]

theorem mem_updateAssoc {α β : Type} [DecidableEq α] (d : List (α × β)) (k : α)
    (v : β) (x : α × β) (hx : x ∈ updateAssoc d k v) : x = (k, v) ∨ x ∈ d := by
  induction d with
  | nil => simpa [updateAssoc] using hx
  | cons p rest ih =>
      obtain ⟨k₀, v₀⟩ := p
      by_cases h : k₀ = k
      · rcases (by simpa [updateAssoc, h] using hx : x = (k, v) ∨ x ∈ rest) with h' | h'
        · exact Or.inl h'
        · exact Or.inr (List.mem_cons_of_mem _ h')
      · rcases (by simpa [updateAssoc, h] using hx :
            x = (k₀, v₀) ∨ x ∈ updateAssoc rest k v) with h' | h'
        · exact Or.inr (by simp [h'])
        · rcases ih h' with h'' | h''
          · exact Or.inl h''
          · exact Or.inr (List.mem_cons_of_mem _ h'')

theorem selfKeyed_updateAssoc {β : Type} (κ : β → String)
    (d : List (String × β)) (k : String) (v : β) (hs : selfKeyed κ d)
    (hv : κ v = k) : selfKeyed κ (updateAssoc d k v) := by
  intro p hp
  rcases mem_updateAssoc d k v p hp with rfl | hp'
  · exact hv
  · exact hs p hp'

theorem updateAssoc_cons {α β : Type} [DecidableEq α] (k₀ k : α) (v₀ v : β)
    (rest : List (α × β)) :
    updateAssoc ((k₀, v₀) :: rest) k v =
      if k₀ = k then (k, v) :: rest else (k₀, v₀) :: updateAssoc rest k v := rfl

theorem distinctKeys_updateAssoc {β : Type} (d : List (String × β)) (k : String)
    (v : β) (hd : distinctKeys d) : distinctKeys (updateAssoc d k v) := by
  induction d with
  | nil => simp [updateAssoc, distinctKeys]
  | cons p rest ih =>
      obtain ⟨k₀, v₀⟩ := p
      obtain ⟨hhead, htail⟩ := List.pairwise_cons.mp hd
      by_cases h : k₀ = k
      · subst h
        rw [updateAssoc_cons, if_pos rfl]
        exact List.pairwise_cons.mpr ⟨fun q hq => hhead q hq, htail⟩
      · rw [updateAssoc_cons, if_neg h]
        refine List.pairwise_cons.mpr ⟨?_, ih htail⟩
        intro q hq
        rcases mem_updateAssoc rest k v q hq with rfl | hq'
        · exact h
        · exact hhead q hq'

theorem selfKeyed_mergeColor (d : List (String × ColorSwatch)) (c : ColorSwatch)
    (hs : selfKeyed colorKey d) : selfKeyed colorKey (mergeColor d c) := by
  unfold mergeColor
  cases lookupA d (colorKey c) with
  | none => exact selfKeyed_updateAssoc colorKey d (colorKey c) c hs rfl
  | some a =>
      show selfKeyed colorKey
        (if c.prominence ≤ a.prominence then d else updateAssoc d (colorKey c) c)
      by_cases hle : c.prominence ≤ a.prominence
      · rw [if_pos hle]; exact hs
      · rw [if_neg hle]; exact selfKeyed_updateAssoc colorKey d (colorKey c) c hs rfl

theorem distinctKeys_mergeColor (d : List (String × ColorSwatch))
    (c : ColorSwatch) (hd : distinctKeys d) : distinctKeys (mergeColor d c) := by
  unfold mergeColor
  cases lookupA d (colorKey c) with
  | none => exact distinctKeys_updateAssoc d (colorKey c) c hd
  | some a =>
      show distinctKeys
        (if c.prominence ≤ a.prominence then d else updateAssoc d (colorKey c) c)
      by_cases hle : c.prominence ≤ a.prominence
      · rw [if_pos hle]; exact hd
      · rw [if_neg hle]; exact distinctKeys_updateAssoc d (colorKey c) c hd

theorem selfKeyed_foldl_mergeColor (l : List ColorSwatch)
    (d : List (String × ColorSwatch)) (hs : selfKeyed colorKey d) :
    selfKeyed colorKey (l.foldl mergeColor d) := by
  induction l generalizing d with
  | nil => exact hs
  | cons c l ih => exact ih _ (selfKeyed_mergeColor d c hs)

theorem distinctKeys_foldl_mergeColor (l : List ColorSwatch)
    (d : List (String × ColorSwatch)) (hd : distinctKeys d) :
    distinctKeys (l.foldl mergeColor d) := by
  induction l generalizing d with
  | nil => exact hd
  | cons c l ih => exact ih _ (distinctKeys_mergeColor d c hd)

theorem countP_values {β : Type} (κ : β → String) (d : List (String × β))
    (k : String) (hs : selfKeyed κ d) (hd : distinctKeys d) :
    (d.map (fun p => p.2)).countP (fun v => decide (κ v = k)) =
      if (lookupA d k).isSome then 1 else 0 := by
  induction d with
  | nil => simp [lookupA]
  | cons p rest ih =>
      obtain ⟨k₀, v₀⟩ := p
      have hs₀ : κ v₀ = k₀ := hs (k₀, v₀) (List.mem_cons_self _ _)
      have hsrest : selfKeyed κ rest := fun q hq => hs q (List.mem_cons_of_mem _ hq)
      obtain ⟨hhead, htail⟩ := List.pairwise_cons.mp hd
      by_cases h : k₀ = k
      · subst h
        have hzero : (rest.map (fun p => p.2)).countP (fun v => decide (κ v = k₀)) = 0 := by
          refine List.countP_eq_zero.mpr ?_
          intro v hv
          obtain ⟨q, hq, rfl⟩ := List.mem_map.mp hv
          simp [hsrest q hq, (hhead q hq).symm]
        simp [lookupA_cons, List.countP_cons, hs₀, hzero]
      · have : ¬ κ v₀ = k := by rw [hs₀]; exact h
        simp [lookupA_cons, h, List.countP_cons, this, ih hsrest htail]

theorem lookupA_eq_some_of_mem {β : Type} (d : List (String × β)) (k : String)
    (v : β) (hd : distinctKeys d) (hm : (k, v) ∈ d) : lookupA d k = some v := by
  induction d with
  | nil => simp at hm
  | cons p rest ih =>
      obtain ⟨k₀, v₀⟩ := p
      obtain ⟨hhead, htail⟩ := List.pairwise_cons.mp hd
      rcases List.mem_cons.mp hm with h | h
      · injection h with h₁ h₂
        rw [lookupA_cons, if_pos h₁.symm, h₂]
      · have hne : k₀ ≠ k := fun hh => hhead (k, v) h (by rw [hh])
        rw [lookupA_cons, if_neg hne]
        exact ih htail h

theorem mem_entries_of_mem_values {β : Type} (κ : β → String)
    (d : List (String × β)) (v : β) (hs : selfKeyed κ d)
    (hv : v ∈ d.map (fun p => p.2)) : (κ v, v) ∈ d := by
  obtain ⟨p, hp, rfl⟩ := List.mem_map.mp hv
  have hkey := hs p hp
  obtain ⟨k₀, v₀⟩ := p
  simpa [hkey] using hp

theorem lookupA_foldl_mergeColor (l : List ColorSwatch)
    (d : List (String × ColorSwatch)) (k : String) :
    lookupA (l.foldl mergeColor d) k =
      pickOpt (lookupA d k) (l.filter (fun c => decide (colorKey c = k))) := by
  induction l generalizing d with
  | nil => cases h : lookupA d k <;> simp [pickOpt, pickFrom, h]
  | cons c l ih =>
      by_cases hc : colorKey c = k
      · subst hc
        rw [List.foldl_cons, List.filter_cons_of_pos (by simp)]
        cases hd : lookupA d (colorKey c) with
        | none =>
            rw [show mergeColor d c = updateAssoc d (colorKey c) c by
              unfold mergeColor; rw [hd]]
            rw [ih, lookupA_updateAssoc_self]
            rfl
        | some a =>
            by_cases hle : c.prominence ≤ a.prominence
            · rw [show mergeColor d c = d by
                unfold mergeColor; rw [hd]; exact if_pos hle]
              rw [ih, hd]
              simp [pickOpt, pickFrom, hle]
            · rw [show mergeColor d c = updateAssoc d (colorKey c) c by
                unfold mergeColor; rw [hd]; exact if_neg hle]
              rw [ih, lookupA_updateAssoc_self]
              simp [pickOpt, pickFrom, hle]
      · have hmc : lookupA (mergeColor d c) k = lookupA d k := by
          unfold mergeColor
          cases hd : lookupA d (colorKey c) with
          | none => exact lookupA_updateAssoc_ne d (colorKey c) k c hc
          | some a =>
              show lookupA (if c.prominence ≤ a.prominence then d
                else updateAssoc d (colorKey c) c) k = lookupA d k
              by_cases hle : c.prominence ≤ a.prominence
              · rw [if_pos hle]
              · rw [if_neg hle]
                exact lookupA_updateAssoc_ne d (colorKey c) k c hc
        rw [List.foldl_cons, ih, hmc, List.filter_cons_of_neg (by simp [hc])]

theorem pickFrom_kept (l : List ColorSwatch) (a : ColorSwatch) :
    keptColor (a :: l) (pickFrom a l) := by
  induction l generalizing a with
  | nil => exact ⟨[], [], rfl, by simp, by simp⟩
  | cons c l ih =>
      by_cases hle : c.prominence ≤ a.prominence
      · have hp : pickFrom a (c :: l) = pickFrom a l := by
          simp [pickFrom, if_pos hle]
        rw [hp]
        obtain ⟨pre, post, heq, hpre, hpost⟩ := ih a
        cases pre with
        | nil =>
            simp only [List.nil_append] at heq
            injection heq with h₁ h₂
            refine ⟨[], c :: post, ?_, by simp, ?_⟩
            · simp only [List.nil_append]
              rw [← h₁, h₂]
            · intro x hx
              rcases List.mem_cons.mp hx with h | hx
              · subst h
                rw [← h₁]; exact hle
              · exact hpost x hx
        | cons p pre₁ =>
            rw [List.cons_append] at heq
            injection heq with h₁ h₂
            refine ⟨a :: c :: pre₁, post, ?_, ?_, hpost⟩
            · rw [List.cons_append, List.cons_append, ← h₂]
            · intro x hx
              rcases List.mem_cons.mp hx with h | hx
              · subst h
                have hh := hpre p (List.mem_cons_self _ _)
                rwa [← h₁] at hh
              · rcases List.mem_cons.mp hx with h | hx
                · subst h
                  have hh := hpre p (List.mem_cons_self _ _)
                  rw [← h₁] at hh
                  exact lt_of_le_of_lt hle hh
                · exact hpre x (List.mem_cons_of_mem _ hx)
      · have hp : pickFrom a (c :: l) = pickFrom c l := by
          simp [pickFrom, if_neg hle]
        rw [hp]
        have hlt : a.prominence < c.prominence := not_le.mp hle
        obtain ⟨pre, post, heq, hpre, hpost⟩ := ih c
        cases pre with
        | nil =>
            simp only [List.nil_append] at heq
            injection heq with h₁ h₂
            refine ⟨[a], post, ?_, ?_, hpost⟩
            · rw [← h₁, h₂]; rfl
            · intro x hx
              rcases List.mem_singleton.mp hx with rfl
              rw [← h₁]; exact hlt
        | cons p pre₁ =>
            rw [List.cons_append] at heq
            injection heq with h₁ h₂
            refine ⟨a :: c :: pre₁, post, ?_, ?_, hpost⟩
            · rw [List.cons_append, List.cons_append, ← h₂]
            · intro x hx
              rcases List.mem_cons.mp hx with h | hx
              · subst h
                have hh := hpre p (List.mem_cons_self _ _)
                rw [← h₁] at hh
                exact lt_trans hlt hh
              · rcases List.mem_cons.mp hx with h | hx
                · subst h
                  have hh := hpre p (List.mem_cons_self _ _)
                  rwa [← h₁] at hh
                · exact hpre x (List.mem_cons_of_mem _ hx)

theorem keptColor_le {l : List ColorSwatch} {c : ColorSwatch}
    (h : keptColor l c) : ∀ x ∈ l, x.prominence ≤ c.prominence := by
  obtain ⟨pre, post, rfl, hpre, hpost⟩ := h
  intro x hx
  rcases List.mem_append.mp hx with hx | hx
  · exact le_of_lt (hpre x hx)
  · rcases List.mem_cons.mp hx with rfl | hx
    · exact le_refl _
    · exact hpost x hx

theorem keptColor_mem {l : List ColorSwatch} {c : ColorSwatch}
    (h : keptColor l c) : c ∈ l := by
  obtain ⟨pre, post, rfl, -, -⟩ := h
  simp

theorem palette_perm (es : List ImageExtraction) :
    ((consolidate es).palette).Perm
      (((allColors es).foldl mergeColor []).map (fun p => p.2)) := by
  rw [consolidate_palette_eq]
  exact List.mergeSort_perm _ _

theorem kSwatches_eq_filter (es : List ImageExtraction) (k : String) :
    kSwatches es k = (allColors es).filter (fun c => decide (colorKey c = k)) := rfl

theorem consolidate_palette_kept (es : List ImageExtraction) (k : String)
    (hk : kSwatches es k ≠ []) :
    ((consolidate es).palette.countP (fun c => decide (colorKey c = k)) = 1) ∧
      ∀ c ∈ (consolidate es).palette, colorKey c = k →
        keptColor (kSwatches es k) c := by
  have hself : selfKeyed colorKey ((allColors es).foldl mergeColor []) :=
    selfKeyed_foldl_mergeColor _ _ (by intro p hp; simp at hp)
  have hdist : distinctKeys ((allColors es).foldl mergeColor []) :=
    distinctKeys_foldl_mergeColor _ _ (by simp [distinctKeys])
  have hlook : lookupA ((allColors es).foldl mergeColor []) k =
      pickOpt none (kSwatches es k) := by
    rw [lookupA_foldl_mergeColor, kSwatches_eq_filter]
    rfl
  obtain ⟨c₀, fl, hfl⟩ : ∃ c₀ fl, kSwatches es k = c₀ :: fl := by
    cases h : kSwatches es k with
    | nil => exact absurd h hk
    | cons c₀ fl => exact ⟨c₀, fl, rfl⟩
  have hsome : lookupA ((allColors es).foldl mergeColor []) k =
      some (pickFrom c₀ fl) := by
    rw [hlook, hfl]; rfl
  constructor
  · rw [List.Perm.countP_eq _ (palette_perm es),
      countP_values colorKey _ k hself hdist, hsome]
    rfl
  · intro c hc hck
    have hcv : c ∈ ((allColors es).foldl mergeColor []).map (fun p => p.2) :=
      (palette_perm es).mem_iff.mp hc
    have hentry : (k, c) ∈ (allColors es).foldl mergeColor [] := by
      have hm := mem_entries_of_mem_values colorKey _ c hself hcv
      rwa [hck] at hm
    have hlc : lookupA ((allColors es).foldl mergeColor []) k = some c :=
      lookupA_eq_some_of_mem _ k c hdist hentry
    rw [hsome] at hlc
    injection hlc with hlc
    rw [← hlc, hfl]
    exact pickFrom_kept fl c₀

theorem mem_kSwatches_swap (L₁ L₂ : List ImageExtraction) (k : String)
    (c : ColorSwatch) (hc : c ∈ kSwatches (L₁ ++ L₂) k) :
    c ∈ kSwatches (L₂ ++ L₁) k := by
  rw [kSwatches_eq_filter, List.mem_filter] at hc ⊢
  refine ⟨?_, hc.2⟩
  have := hc.1
  simp only [allColors, List.flatMap_append, List.mem_append] at this ⊢
  exact this.symm

/-- C1: when the supplied extractions share an uppercased hex key, the merged
palette holds exactly one swatch for that key; it is one of the contributed
swatches for that key and carries the maximum prominence observed across all
contributing images (`keptColor` additionally pins it as the first-written
swatch attaining that maximum, so an exact tie keeps the earlier write); and
the retained prominence is the same whichever order the two lists are
supplied in. -/
theorem consolidate_palette_merge (L₁ L₂ : List ImageExtraction) (k : String)
    (hk : ∃ c ∈ allColors (L₁ ++ L₂), colorKey c = k) :
    ((consolidate (L₁ ++ L₂)).palette.countP (fun c => decide (colorKey c = k)) = 1) ∧
      (∀ c ∈ (consolidate (L₁ ++ L₂)).palette, colorKey c = k →
        c ∈ kSwatches (L₁ ++ L₂) k ∧
          (∀ x ∈ kSwatches (L₁ ++ L₂) k, x.prominence ≤ c.prominence) ∧
          keptColor (kSwatches (L₁ ++ L₂) k) c) ∧
      (∀ c ∈ (consolidate (L₁ ++ L₂)).palette,
        ∀ c' ∈ (consolidate (L₂ ++ L₁)).palette,
        colorKey c = k → colorKey c' = k → c.prominence = c'.prominence) := by
  have hne : kSwatches (L₁ ++ L₂) k ≠ [] := by
    obtain ⟨c, hc, hck⟩ := hk
    have hmem : c ∈ kSwatches (L₁ ++ L₂) k := by
      rw [kSwatches_eq_filter, List.mem_filter]
      exact ⟨hc, by simp [hck]⟩
    intro h
    rw [h] at hmem
    simp at hmem
  have hne' : kSwatches (L₂ ++ L₁) k ≠ [] := by
    obtain ⟨c₀, fl, hfl⟩ : ∃ c₀ fl, kSwatches (L₁ ++ L₂) k = c₀ :: fl := by
      cases h : kSwatches (L₁ ++ L₂) k with
      | nil => exact absurd h hne
      | cons c₀ fl => exact ⟨c₀, fl, rfl⟩
    have : c₀ ∈ kSwatches (L₂ ++ L₁) k :=
      mem_kSwatches_swap L₁ L₂ k c₀ (by rw [hfl]; exact List.mem_cons_self _ _)
    intro h
    rw [h] at this
    simp at this
  obtain ⟨h1, h2⟩ := consolidate_palette_kept (L₁ ++ L₂) k hne
  obtain ⟨h1', h2'⟩ := consolidate_palette_kept (L₂ ++ L₁) k hne'
  refine ⟨h1, fun c hc hck => ?_, fun c hc c' hc' hck hck' => ?_⟩
  · have hkc := h2 c hc hck
    exact ⟨keptColor_mem hkc, keptColor_le hkc, hkc⟩
  · have hkc := h2 c hc hck
    have hkc' := h2' c' hc' hck'
    have hmem : c ∈ kSwatches (L₂ ++ L₁) k :=
      mem_kSwatches_swap L₁ L₂ k c (keptColor_mem hkc)
    have hmem' : c' ∈ kSwatches (L₁ ++ L₂) k :=
      mem_kSwatches_swap L₂ L₁ k c' (keptColor_mem hkc')
    exact le_antisymm (keptColor_le hkc' c hmem) (keptColor_le hkc c' hmem')

/-- Witness for C1: two single-image lists sharing hex key `#00A1DE` with
prominences `1/2` and `3/4`. -/
theorem consolidate_palette_merge_witness :
    (consolidate ([cwExtA] ++ [cwExtB])).palette.countP
      (fun c => decide (colorKey c = "#00A1DE")) = 1 :=
  (consolidate_palette_merge [cwExtA] [cwExtB] "#00A1DE"
    ⟨{ hex := "#00a1de", name := "Bynder Blue", prominence := 1/2, usage_hint := "x" },
     by simp [allColors, cwExtA, cwExtB], by decide⟩).1

theorem selfKeyed_mergeTypo (d : List (String × TypographySample))
    (t : TypographySample) (hs : selfKeyed typoKey d) :
    selfKeyed typoKey (mergeTypo d t) := by
  unfold mergeTypo
  cases lookupA d (typoKey t) with
  | none => exact selfKeyed_updateAssoc typoKey d (typoKey t) t hs rfl
  | some a => exact hs

theorem distinctKeys_mergeTypo (d : List (String × TypographySample))
    (t : TypographySample) (hd : distinctKeys d) :
    distinctKeys (mergeTypo d t) := by
  unfold mergeTypo
  cases lookupA d (typoKey t) with
  | none => exact distinctKeys_updateAssoc d (typoKey t) t hd
  | some a => exact hd

theorem selfKeyed_foldl_mergeTypo (l : List TypographySample)
    (d : List (String × TypographySample)) (hs : selfKeyed typoKey d) :
    selfKeyed typoKey (l.foldl mergeTypo d) := by
  induction l generalizing d with
  | nil => exact hs
  | cons t l ih => exact ih _ (selfKeyed_mergeTypo d t hs)

theorem distinctKeys_foldl_mergeTypo (l : List TypographySample)
    (d : List (String × TypographySample)) (hd : distinctKeys d) :
    distinctKeys (l.foldl mergeTypo d) := by
  induction l generalizing d with
  | nil => exact hd
  | cons t l ih => exact ih _ (distinctKeys_mergeTypo d t hd)

theorem lookupA_foldl_mergeTypo (l : List TypographySample)
    (d : List (String × TypographySample)) (k : String) :
    lookupA (l.foldl mergeTypo d) k =
      match lookupA d k with
      | some a => some a
      | none => l.find? (fun t => decide (typoKey t = k)) := by
  induction l generalizing d with
  | nil => cases h : lookupA d k <;> simp [h]
  | cons t l ih =>
      by_cases ht : typoKey t = k
      · subst ht
        cases hd : lookupA d (typoKey t) with
        | none =>
            rw [List.foldl_cons, show mergeTypo d t = updateAssoc d (typoKey t) t by
              unfold mergeTypo; rw [hd]]
            rw [ih, lookupA_updateAssoc_self]
            rw [List.find?_cons_of_pos _ (by simp)]
        | some a =>
            rw [List.foldl_cons, show mergeTypo d t = d by
              unfold mergeTypo; rw [hd]]
            rw [ih, hd]
      · have hmc : lookupA (mergeTypo d t) k = lookupA d k := by
          unfold mergeTypo
          cases lookupA d (typoKey t) with
          | none => exact lookupA_updateAssoc_ne d (typoKey t) k t ht
          | some a => rfl
        rw [List.foldl_cons, ih, hmc]
        cases h : lookupA d k with
        | some a => rfl
        | none => rw [List.find?_cons_of_neg _ (by simp [ht])]

theorem find?_strengthen {α : Type} (p q : α → Bool) (l : List α) (v : α)
    (h : l.find? p = some v) (himp : ∀ x, q x = true → p x = true)
    (hq : q v = true) : l.find? q = some v := by
  induction l with
  | nil => simp at h
  | cons a l ih =>
      cases hpa : p a with
      | true =>
          rw [List.find?_cons_of_pos _ hpa] at h
          injection h with h
          subst h
          exact List.find?_cons_of_pos _ hq
      | false =>
          rw [List.find?_cons_of_neg _ (by simp [hpa])] at h
          have hqa : ¬ q a = true := fun hqa => by simp [himp a hqa] at hpa
          rw [List.find?_cons_of_neg _ hqa]
          exact ih h

/-- C2 (amended): if some image contributes a sample with the given
(classification, weight, casing) triple, and no contributed sample with a
different triple produces the same colon-joined dedup key (automatic when
field values contain no colon, as all locally produced values do), then the
aggregated typography list contains exactly one entry with that triple, and
it is the first-occurring such sample across the image sequence — hence its
first-seen text is retained. -/
theorem consolidate_typography_dedup (es : List ImageExtraction)
    (cl w ca : String)
    (hex₀ : ∃ s ∈ allTypo es, s.classification = cl ∧ s.weight = w ∧ s.casing = ca)
    (hnocoll : ∀ s ∈ allTypo es, typoKey s = cl ++ ":" ++ w ++ ":" ++ ca →
      s.classification = cl ∧ s.weight = w ∧ s.casing = ca) :
    ((consolidate es).typography.countP
        (fun s => decide (s.classification = cl ∧ s.weight = w ∧ s.casing = ca)) = 1) ∧
      ∀ s ∈ (consolidate es).typography,
        s.classification = cl ∧ s.weight = w ∧ s.casing = ca →
        (allTypo es).find?
            (fun t => decide (t.classification = cl ∧ t.weight = w ∧ t.casing = ca)) =
          some s := by
  have hself : selfKeyed typoKey ((allTypo es).foldl mergeTypo []) :=
    selfKeyed_foldl_mergeTypo _ _ (by intro p hp; simp at hp)
  have hdist : distinctKeys ((allTypo es).foldl mergeTypo []) :=
    distinctKeys_foldl_mergeTypo _ _ (by simp [distinctKeys])
  have hkey : ∀ s : TypographySample, s.classification = cl → s.weight = w →
      s.casing = ca → typoKey s = cl ++ ":" ++ w ++ ":" ++ ca := by
    intro s h₁ h₂ h₃
    rw [typoKey, h₁, h₂, h₃]
  have hlook : lookupA ((allTypo es).foldl mergeTypo []) (cl ++ ":" ++ w ++ ":" ++ ca) =
      (allTypo es).find? (fun t => decide (typoKey t = cl ++ ":" ++ w ++ ":" ++ ca)) := by
    rw [lookupA_foldl_mergeTypo]
    rfl
  obtain ⟨v, hv⟩ : ∃ v, (allTypo es).find?
      (fun t => decide (typoKey t = cl ++ ":" ++ w ++ ":" ++ ca)) = some v := by
    refine Option.isSome_iff_exists.mp ?_
    rw [List.find?_isSome]
    obtain ⟨s₀, hs₀, hm⟩ := hex₀
    exact ⟨s₀, hs₀, by simp [hkey s₀ hm.1 hm.2.1 hm.2.2]⟩
  have hvK : typoKey v = cl ++ ":" ++ w ++ ":" ++ ca := by
    have := List.find?_some hv
    simpa using this
  have hvtriple := hnocoll v (List.mem_of_find?_eq_some hv) hvK
  have hlookv : lookupA ((allTypo es).foldl mergeTypo [])
      (cl ++ ":" ++ w ++ ":" ++ ca) = some v := by
    rw [hlook, hv]
  have huniq : ∀ s, s ∈ ((allTypo es).foldl mergeTypo []).map (fun p => p.2) →
      typoKey s = cl ++ ":" ++ w ++ ":" ++ ca → s = v := by
    intro s hs hsK
    have hentry : (cl ++ ":" ++ w ++ ":" ++ ca, s) ∈ (allTypo es).foldl mergeTypo [] := by
      have hm := mem_entries_of_mem_values typoKey _ s hself hs
      rwa [hsK] at hm
    have hls := lookupA_eq_some_of_mem _ _ s hdist hentry
    rw [hlookv] at hls
    injection hls with hls
    exact hls.symm
  constructor
  · rw [consolidate_typography_eq]
    rw [List.countP_congr
        (q := fun s => decide (typoKey s = cl ++ ":" ++ w ++ ":" ++ ca)) ?_]
    · rw [countP_values typoKey _ _ hself hdist, hlookv]
      rfl
    · intro s hs
      constructor
      · intro h
        have h' := of_decide_eq_true h
        simp [hkey s h'.1 h'.2.1 h'.2.2]
      · intro h
        have h' := of_decide_eq_true h
        have hsv := huniq s hs h'
        subst hsv
        simp [hvtriple.1, hvtriple.2.1, hvtriple.2.2]
  · intro s hs hstriple
    have hsv : s = v := by
      refine huniq s ?_ (hkey s hstriple.1 hstriple.2.1 hstriple.2.2)
      rwa [consolidate_typography_eq] at hs
    subst hsv
    refine find?_strengthen _ _ _ s hv ?_ ?_
    · intro x hx
      have h' := of_decide_eq_true hx
      simp [hkey x h'.1 h'.2.1 h'.2.2]
    · simp [hstriple.1, hstriple.2.1, hstriple.2.2]

/-- Counterexample for C2 as frozen: two images (`c2Ext1`, `c2Ext2`) each
contribute a sample with the identical triple (`a`, `b:c`, `d`), yet the
aggregated typography list contains zero entries with that triple, because
the colliding sample of `c2Ext0` (different triple, same colon-joined key
`a:b:c:d`) already owns the dictionary slot. -/
theorem consolidate_typography_dedup_cex :
    c2First ∈ c2Ext1.typography ∧ c2Second ∈ c2Ext2.typography ∧
      c2First.classification = "a" ∧ c2First.weight = "b:c" ∧ c2First.casing = "d" ∧
      c2Second.classification = "a" ∧ c2Second.weight = "b:c" ∧ c2Second.casing = "d" ∧
      (consolidate [c2Ext0, c2Ext1, c2Ext2]).typography.countP
        (fun s => decide (s.classification = "a" ∧ s.weight = "b:c" ∧ s.casing = "d")) = 0 := by
  decide

/-- Witness for the amended C2 at concrete inputs: two images contributing
display/bold/uppercase samples dedup to exactly one aggregated entry. -/
theorem consolidate_typography_dedup_witness :
    (consolidate [twExt1, twExt2]).typography.countP
      (fun s => decide (s.classification = "display" ∧ s.weight = "bold" ∧
        s.casing = "uppercase")) = 1 :=
  (consolidate_typography_dedup [twExt1, twExt2] "display" "bold" "uppercase"
    ⟨{ text := "HI", casing := "uppercase", weight := "bold", classification := "display" },
      by decide, by decide⟩
    (by decide)).1

theorem hexDigitVal_hexDigitChar : ∀ n < 16, hexDigitVal (hexDigitChar n) = n := by
  decide

theorem hexDigitChar_ne_hash : ∀ n < 16, hexDigitChar n ≠ '#' := by
  decide

theorem relative_brightness_formula :
    ∀ r g b : ℕ, r < 256 → g < 256 → b < 256 →
      relative_brightness (hexOfRGB r g b) =
        ((2126 : ℚ)/10000 * (r : ℚ) + (7152 : ℚ)/10000 * (g : ℚ) +
          (722 : ℚ)/10000 * (b : ℚ)) / 255 := by
  intro r g b hr hg hb
  have hr₁ : r / 16 < 16 := (Nat.div_lt_iff_lt_mul (by norm_num)).mpr hr
  have hg₁ : g / 16 < 16 := (Nat.div_lt_iff_lt_mul (by norm_num)).mpr hg
  have hb₁ : b / 16 < 16 := (Nat.div_lt_iff_lt_mul (by norm_num)).mpr hb
  have hr₂ : r % 16 < 16 := Nat.mod_lt _ (by norm_num)
  have hg₂ : g % 16 < 16 := Nat.mod_lt _ (by norm_num)
  have hb₂ : b % 16 < 16 := Nat.mod_lt _ (by norm_num)
  have hdata : (hexOfRGB r g b).data =
      ['#', hexDigitChar (r / 16), hexDigitChar (r % 16), hexDigitChar (g / 16),
       hexDigitChar (g % 16), hexDigitChar (b / 16), hexDigitChar (b % 16)] := by
    simp [hexOfRGB, byteHex, String.data_append]
  rw [relative_brightness, hdata]
  rw [List.dropWhile_cons, if_pos (by decide), List.dropWhile_cons,
    if_neg (by simp [hexDigitChar_ne_hash _ hr₁])]
  simp only [List.getD_cons_zero, List.getD_cons_succ]
  rw [hexDigitVal_hexDigitChar _ hr₁, hexDigitVal_hexDigitChar _ hr₂,
    hexDigitVal_hexDigitChar _ hg₁, hexDigitVal_hexDigitChar _ hg₂,
    hexDigitVal_hexDigitChar _ hb₁, hexDigitVal_hexDigitChar _ hb₂]
  have er : r / 16 * 16 + r % 16 = r := by omega
  have eg : g / 16 * 16 + g % 16 = g := by omega
  have eb : b / 16 * 16 + b % 16 = b := by omega
  rw [er, eg, eb]

theorem tone_body_explicit (palette : List ColorSwatch)
    (typo : List TypographySample) (copy_lines : List String) (d : ColorSwatch)
    (rest : List ColorSwatch) (hp : palette = d :: rest) :
    (tone_of_voice_section palette typo copy_lines none none).body =
      ["### What Defines the Voice",
       toneLine (if relative_brightness d.hex < 7/20 then "confident and premium"
         else if relative_brightness d.hex < 3/5 then "assured and balanced"
         else "open and energizing")] ++
      (if uppercase_ratio copy_lines > 11/20 then [upperCaseLine]
        else if uppercase_ratio copy_lines < 1/4 ∧ copy_lines ≠ [] then [sentenceCaseLine]
        else [mixedCaseLine]) ++
      ["", "### Key Voice Principles"] ++
      defaultPillars (if copy_lines = [] then 0
        else ((copy_lines.map (fun l => ((pyWords l).length : ℚ))).sum) /
          (copy_lines.length : ℚ)) := by
  subst hp
  simp only [tone_of_voice_section, List.head?_cons, List.append_nil,
    List.nil_append, List.append_assoc, List.cons_append]

/-- C8 (amended): with a dominant swatch present, the tone line is bucketed by
relative luminance at strictly `< 0.35` (confident/premium), `< 0.6`
(assured/balanced), else open/energizing, where the luminance of `#RRGGBB` is
`(0.2126 R + 0.7152 G + 0.0722 B)/255`; the casing line is bucketed by the
uppercase-letter ratio at strictly `> 0.55` (bold-headline) and strictly
`< 0.25` (conversational) — the conversational bucket additionally requires
at least one copy line; every other case (including no copy lines at all)
gets the mixed guidance. -/
theorem tone_voice_thresholds (palette : List ColorSwatch)
    (typo : List TypographySample) (copy_lines : List String) (d : ColorSwatch)
    (rest : List ColorSwatch) (hp : palette = d :: rest) :
    (relative_brightness d.hex < 7/20 →
        ((tone_of_voice_section palette typo copy_lines none none).body)[1]? =
          some (toneLine "confident and premium")) ∧
      (7/20 ≤ relative_brightness d.hex → relative_brightness d.hex < 3/5 →
        ((tone_of_voice_section palette typo copy_lines none none).body)[1]? =
          some (toneLine "assured and balanced")) ∧
      (3/5 ≤ relative_brightness d.hex →
        ((tone_of_voice_section palette typo copy_lines none none).body)[1]? =
          some (toneLine "open and energizing")) ∧
      (uppercase_ratio copy_lines > 11/20 →
        ((tone_of_voice_section palette typo copy_lines none none).body)[2]? =
          some upperCaseLine) ∧
      (uppercase_ratio copy_lines < 1/4 → copy_lines ≠ [] →
        ((tone_of_voice_section palette typo copy_lines none none).body)[2]? =
          some sentenceCaseLine) ∧
      (uppercase_ratio copy_lines ≤ 11/20 →
        ¬(uppercase_ratio copy_lines < 1/4 ∧ copy_lines ≠ []) →
        ((tone_of_voice_section palette typo copy_lines none none).body)[2]? =
          some mixedCaseLine) ∧
      (∀ r g b : ℕ, r < 256 → g < 256 → b < 256 →
        relative_brightness (hexOfRGB r g b) =
          ((2126 : ℚ)/10000 * (r : ℚ) + (7152 : ℚ)/10000 * (g : ℚ) +
            (722 : ℚ)/10000 * (b : ℚ)) / 255) := by
  refine ⟨?_, ?_, ?_, ?_, ?_, ?_, relative_brightness_formula⟩
  · intro h
    rw [tone_body_explicit palette typo copy_lines d rest hp]
    simp only [List.cons_append, List.getElem?_cons_succ, List.getElem?_cons_zero]
    rw [if_pos h]
  · intro h₁ h₂
    rw [tone_body_explicit palette typo copy_lines d rest hp]
    simp only [List.cons_append, List.getElem?_cons_succ, List.getElem?_cons_zero]
    rw [if_neg (not_lt.mpr h₁), if_pos h₂]
  · intro h
    rw [tone_body_explicit palette typo copy_lines d rest hp]
    simp only [List.cons_append, List.getElem?_cons_succ, List.getElem?_cons_zero]
    rw [if_neg (not_lt.mpr (by linarith)), if_neg (not_lt.mpr h)]
  · intro h
    rw [tone_body_explicit palette typo copy_lines d rest hp]
    simp only [List.cons_append, List.getElem?_cons_succ, List.getElem?_cons_zero]
    rw [if_pos h]
    simp
  · intro h hne
    rw [tone_body_explicit palette typo copy_lines d rest hp]
    simp only [List.cons_append, List.getElem?_cons_succ, List.getElem?_cons_zero]
    rw [if_neg (not_lt.mpr (by linarith)), if_pos ⟨h, hne⟩]
    simp
  · intro h₁ h₂
    rw [tone_body_explicit palette typo copy_lines d rest hp]
    simp only [List.cons_append, List.getElem?_cons_succ, List.getElem?_cons_zero]
    rw [if_neg (not_lt.mpr h₁), if_neg h₂]
    simp

/-- Counterexample for C8 as frozen: with no copy lines the uppercase ratio is
`0 < 0.25`, yet the emitted guidance is the mixed-casing line, not the
conversational one — the conversational bucket requires a non-empty copy
list. -/
theorem tone_voice_thresholds_cex :
    uppercase_ratio [] < 1/4 ∧
      ((tone_of_voice_section [w8Swatch] [] [] none none).body)[2]? =
        some mixedCaseLine ∧
      mixedCaseLine ≠ sentenceCaseLine := by
  refine ⟨?_, ?_, by decide⟩
  · rw [show uppercase_ratio [] = 0 from rfl]
    norm_num
  · rw [tone_body_explicit [w8Swatch] [] [] w8Swatch [] rfl]
    simp only [List.cons_append, List.getElem?_cons_succ, List.getElem?_cons_zero]
    rw [show uppercase_ratio [] = 0 from rfl]
    rw [if_neg (by norm_num), if_neg (by simp)]
    simp

/-- Witness for the amended C8: dominant `#000000` (brightness `0`) buckets to
confident/premium, and an all-digit copy line (ratio `0`, non-empty list)
buckets to the conversational guidance. -/
theorem tone_voice_thresholds_witness :
    ((tone_of_voice_section [w8Swatch] [] ["123"] none none).body)[1]? =
        some (toneLine "confident and premium") ∧
      ((tone_of_voice_section [w8Swatch] [] ["123"] none none).body)[2]? =
        some sentenceCaseLine := by
  have H := tone_voice_thresholds [w8Swatch] [] ["123"] w8Swatch [] rfl
  have hb : relative_brightness w8Swatch.hex = 0 := by
    rw [show w8Swatch.hex = hexOfRGB 0 0 0 from rfl]
    rw [relative_brightness_formula 0 0 0 (by norm_num) (by norm_num) (by norm_num)]
    norm_num
  refine ⟨H.1 ?_, H.2.2.2.2.1 ?_ (by simp)⟩
  · rw [hb]; norm_num
  · rw [show uppercase_ratio ["123"] = 0 by decide]
    norm_num

theorem counterStep_pos (acc : List (ℕ × ℕ)) (x : ℕ)
    (hacc : ∀ p ∈ acc, 1 ≤ p.2) : ∀ p ∈ counterStep acc x, 1 ≤ p.2 := by
  unfold counterStep
  cases lookupA acc x with
  | some n =>
      intro p hp
      rcases mem_updateAssoc _ _ _ _ hp with rfl | hp'
      · simp
      · exact hacc p hp'
  | none =>
      intro p hp
      rcases mem_updateAssoc _ _ _ _ hp with rfl | hp'
      · simp
      · exact hacc p hp'

theorem counter_fold_pos (data : List ℕ) (acc : List (ℕ × ℕ))
    (hacc : ∀ p ∈ acc, 1 ≤ p.2) : ∀ p ∈ data.foldl counterStep acc, 1 ≤ p.2 := by
  induction data generalizing acc with
  | nil => exact hacc
  | cons x data ih => exact ih _ (counterStep_pos acc x hacc)

theorem swatchOfCount_some (pc : List ℕ) (tp : ℕ) (ic : ℕ × ℕ) (s : ColorSwatch)
    (h : swatchOfCount pc tp ic = some s) :
    s.prominence = (ic.2 : ℚ) / (tp : ℚ) ∧ s.usage_hint = usage_hint s.prominence := by
  unfold swatchOfCount at h
  by_cases hg : pc.length ≤ ic.1 * 3 + 2
  · rw [if_pos hg] at h
    cases h
  · rw [if_neg hg] at h
    injection h with h
    subst h
    exact ⟨rfl, rfl⟩

/-- C7: the color extractor returns at most `max_colors` swatches, every
returned prominence lies in `(0, 1]`, the list is sorted by prominence
descending, each swatch's hint is the usage-hint step function of its own
prominence, and that step function buckets exactly at `≥ 0.45` / `≥ 0.25` /
`≥ 0.10` into the four documented tiers. -/
theorem extract_colors_spec (data palette_raw : List ℕ) (k : ℕ) :
    (extract_colors data palette_raw k).length ≤ k ∧
      (∀ s ∈ extract_colors data palette_raw k, 0 < s.prominence ∧ s.prominence ≤ 1) ∧
      List.Pairwise (fun a b => b.prominence ≤ a.prominence)
        (extract_colors data palette_raw k) ∧
      (∀ s ∈ extract_colors data palette_raw k, s.usage_hint = usage_hint s.prominence) ∧
      (∀ p : ℚ,
        (9/20 ≤ p → usage_hint p = "Dominant background or hero coverage") ∧
        (1/4 ≤ p → p < 9/20 → usage_hint p = "Primary supporting block") ∧
        (1/10 ≤ p → p < 1/4 → usage_hint p = "Accent or typography highlight") ∧
        (p < 1/10 → usage_hint p = "Detail accent")) := by
  have hpos : ∀ p ∈ counterOf data, 1 ≤ p.2 := counter_fold_pos data [] (by simp)
  have htpos : 0 < (if ((counterOf data).map (fun p => p.2)).sum = 0 then 1
      else ((counterOf data).map (fun p => p.2)).sum) := by
    by_cases h : ((counterOf data).map (fun p => p.2)).sum = 0
    · rw [if_pos h]; exact Nat.one_pos
    · rw [if_neg h]; exact Nat.pos_of_ne_zero h
  have htposQ : (0 : ℚ) < ((if ((counterOf data).map (fun p => p.2)).sum = 0 then 1
      else ((counterOf data).map (fun p => p.2)).sum : ℕ) : ℚ) := by
    exact_mod_cast htpos
  have hmemcounts : ∀ ic ∈ mostCommon (counterOf data) k, ic ∈ counterOf data := by
    intro ic hic
    exact List.mem_mergeSort.mp (List.mem_of_mem_take hic)
  have hle : ∀ ic ∈ counterOf data,
      ic.2 ≤ (if ((counterOf data).map (fun p => p.2)).sum = 0 then 1
        else ((counterOf data).map (fun p => p.2)).sum) := by
    intro ic hic
    have h₁ : ic.2 ≤ ((counterOf data).map (fun p => p.2)).sum :=
      List.single_le_sum (fun x _ => Nat.zero_le x) _
        (List.mem_map_of_mem _ hic)
    have h₂ : ((counterOf data).map (fun p => p.2)).sum ≠ 0 := by
      intro h0
      have := hpos ic hic
      omega
    rw [if_neg h₂]
    exact h₁
  refine ⟨?_, ?_, ?_, ?_, ?_⟩
  · unfold extract_colors
    refine le_trans (List.length_filterMap_le _ _) ?_
    unfold mostCommon
    rw [List.length_take]
    exact min_le_left _ _
  · intro s hs
    unfold extract_colors at hs
    obtain ⟨ic, hic, hfc⟩ := List.mem_filterMap.mp hs
    obtain ⟨hprom, -⟩ := swatchOfCount_some _ _ _ _ hfc
    rw [hprom]
    constructor
    · refine div_pos ?_ htposQ
      have := hpos ic (hmemcounts ic hic)
      exact_mod_cast Nat.lt_of_lt_of_le Nat.zero_lt_one this
    · rw [div_le_one htposQ]
      exact_mod_cast hle ic (hmemcounts ic hic)
  · unfold extract_colors
    rw [List.pairwise_filterMap]
    have hsorted : List.Pairwise (fun a b : ℕ × ℕ => decide (b.2 ≤ a.2) = true)
        ((counterOf data).mergeSort (fun a b => decide (b.2 ≤ a.2))) := by
      refine List.sorted_mergeSort ?_ ?_ _
      · intro a b c h₁ h₂
        simp only [decide_eq_true_eq] at *
        omega
      · intro a b
        simp only [Bool.or_eq_true, decide_eq_true_eq]
        exact le_total _ _
    have htake : List.Pairwise (fun a b : ℕ × ℕ => decide (b.2 ≤ a.2) = true)
        (mostCommon (counterOf data) k) :=
      List.Pairwise.sublist (List.take_sublist _ _) hsorted
    refine htake.imp ?_
    intro a b hab s hs s' hs'
    rw [Option.mem_def] at hs hs'
    obtain ⟨hpa, -⟩ := swatchOfCount_some _ _ _ _ hs
    obtain ⟨hpb, -⟩ := swatchOfCount_some _ _ _ _ hs'
    rw [hpa, hpb]
    rw [div_le_div_iff_of_pos_right htposQ]
    have : b.2 ≤ a.2 := by simpa using hab
    exact_mod_cast this
  · intro s hs
    unfold extract_colors at hs
    obtain ⟨ic, hic, hfc⟩ := List.mem_filterMap.mp hs
    exact (swatchOfCount_some _ _ _ _ hfc).2
  · intro p
    refine ⟨fun h => ?_, fun h₁ h₂ => ?_, fun h₁ h₂ => ?_, fun h => ?_⟩
    · rw [usage_hint, if_pos h]
    · rw [usage_hint, if_neg (not_le.mpr h₂), if_pos h₁]
    · rw [usage_hint, if_neg (not_le.mpr (by linarith)),
        if_neg (not_le.mpr h₂), if_pos h₁]
    · rw [usage_hint, if_neg (not_le.mpr (by linarith)),
        if_neg (not_le.mpr (by linarith)), if_neg (not_le.mpr h)]

/-- Witness for C7: two pixels of palette index `0` over the palette buffer
`[9, 8, 7]` extract exactly one swatch with prominence `2/2 = 1`. -/
theorem extract_colors_spec_witness :
    (extract_colors [0, 0] [9, 8, 7] 5).length ≤ 5 ∧
      (0 < w7s.prominence ∧ w7s.prominence ≤ 1) ∧
      w7s.usage_hint = usage_hint w7s.prominence ∧
      usage_hint 1 = "Dominant background or hero coverage" := by
  have H := extract_colors_spec [0, 0] [9, 8, 7] 5
  have hmc : mostCommon (counterOf [0, 0]) 5 = [(0, 2)] := by
    rw [show counterOf [0, 0] = [(0, 2)] from rfl]
    unfold mostCommon
    rw [List.mergeSort_singleton]
    rfl
  have hW : extract_colors [0, 0] [9, 8, 7] 5 = [w7s] := by
    unfold extract_colors
    rw [hmc]
    rfl
  have hmem : w7s ∈ extract_colors [0, 0] [9, 8, 7] 5 := by
    rw [hW]
    exact List.mem_cons_self _ _
  exact ⟨H.1, H.2.1 w7s hmem, H.2.2.2.1 w7s hmem, (H.2.2.2.2 1).1 (by norm_num)⟩

/-- C10: the local extraction path always populates `layout` with the computed
`LayoutSummary`, never `None`, although the field is declared optional. -/
theorem extraction_layout_present (path : Path) (data palette_raw : List ℕ)
    (gray : List (List ℚ)) (text_lines : List String) :
    (extract_from_image path data palette_raw gray text_lines).layout =
        some (summarize_layout gray) ∧
      ((extract_from_image path data palette_raw gray text_lines).layout).isSome = true :=
  ⟨rfl, rfl⟩

end BGE
